import Mathlib

/-!
Verification of the schema descriptor core of a columnar storage engine
(`be/src/storage/tablet_schema.h`): the per-column descriptor `TabletColumn`
with its bit-packed flag byte and optional extra-fields block, and the
per-tablet `TabletSchema` with its sort-key bookkeeping, memory accounting,
unique-id index and serialization round trip.

Machine integers are modelled as `Nat`/`Int`; the `uint8_t _flags` byte is a
`Nat` on which all writes use the source's or/and masks (`~(1 << pos)`
truncated to eight bits is `255 ^^^ (1 <<< pos)`).  `std::string` capacity is
modelled as the string length.  Fallible operations return `Option`.
-/

/-- Shift constant `kIsKeyShift` of `TabletColumn`. -/
def kIsKeyShift : Nat := 0

/-- Shift constant `kIsNullableShift` of `TabletColumn`. -/
def kIsNullableShift : Nat := 1

/-- Shift constant `kIsBfColumnShift` of `TabletColumn`. -/
def kIsBfColumnShift : Nat := 2

/-- Shift constant `kHasBitmapIndexShift` of `TabletColumn`. -/
def kHasBitmapIndexShift : Nat := 3

/-- Shift constant `kHasPrecisionShift` of `TabletColumn`. -/
def kHasPrecisionShift : Nat := 4

/-- Shift constant `kHasScaleShift` of `TabletColumn`. -/
def kHasScaleShift : Nat := 5

/-- Shift constant `kHasAutoIncrementShift` of `TabletColumn`. -/
def kHasAutoIncrementShift : Nat := 6

/-- Shift constant `kIsSortKey` of `TabletColumn`. -/
def kIsSortKey : Nat := 7

/-- The extra-fields block of a column (`TabletColumn::ExtraFields`): a default
value string, the nested sub-columns, and the flag that marks whether the
default value is meaningful.  Parametrised over the column type so that it can
be nested inside the inductive `TabletColumn`. -/
structure ExtraFieldsOf (α : Type) where
  default_value : String
  sub_columns : List α
  has_default_value : Bool

/-- One column's schema metadata (`TabletColumn`).  The field order follows the
member list of the class; `_flags` is the packed byte of the eight boolean
attributes, `_extra_fields` is the optional separately-allocated block (absent
pointer modelled as `none`). -/
inductive TabletColumn : Type where
  | mk (col_name : String) (unique_id : Int) (len : Int) (aggregation : Int)
       (ty : Int) (index_length : Nat) (precision : Nat) (scale : Nat)
       (flags : Nat) (extra_fields : Option (ExtraFieldsOf TabletColumn)) : TabletColumn

/-- Accessor for the `_col_name` member. -/
def TabletColumn.col_name : TabletColumn → String
  | .mk n _ _ _ _ _ _ _ _ _ => n

/-- Accessor for the `_unique_id` member (`unique_id()`). -/
def TabletColumn.unique_id : TabletColumn → Int
  | .mk _ u _ _ _ _ _ _ _ _ => u

/-- Accessor for the `_length` member (`length()`). -/
def TabletColumn.len : TabletColumn → Int
  | .mk _ _ l _ _ _ _ _ _ _ => l

/-- Accessor for the `_aggregation` member (`aggregation()`). -/
def TabletColumn.aggregation : TabletColumn → Int
  | .mk _ _ _ a _ _ _ _ _ _ => a

/-- Accessor for the `_type` member (`type()`). -/
def TabletColumn.ty : TabletColumn → Int
  | .mk _ _ _ _ t _ _ _ _ _ => t

/-- Accessor for the `_index_length` member (`index_length()`). -/
def TabletColumn.index_length : TabletColumn → Nat
  | .mk _ _ _ _ _ il _ _ _ _ => il

/-- Accessor for the `_precision` member (`precision()`). -/
def TabletColumn.precision : TabletColumn → Nat
  | .mk _ _ _ _ _ _ p _ _ _ => p

/-- Accessor for the `_scale` member (`scale()`). -/
def TabletColumn.scale : TabletColumn → Nat
  | .mk _ _ _ _ _ _ _ s _ _ => s

/-- Accessor for the `_flags` member byte. -/
def TabletColumn.flags : TabletColumn → Nat
  | .mk _ _ _ _ _ _ _ _ f _ => f

/-- Accessor for the `_extra_fields` member pointer. -/
def TabletColumn.extra_fields : TabletColumn → Option (ExtraFieldsOf TabletColumn)
  | .mk _ _ _ _ _ _ _ _ _ e => e

/-- The flag-byte write `TabletColumn::_set_flag`: `_flags |= (1 << pos)` when
the value is set, `_flags &= ~(1 << pos)` when it is cleared; the complement
mask truncated to the eight bits of `uint8_t` is `255 ^^^ (1 <<< pos)`. -/
def TabletColumn._set_flag (flags pos : Nat) (value : Bool) : Nat :=
  if value then flags ||| (1 <<< pos) else flags &&& (255 ^^^ (1 <<< pos))

/-- The flag-byte read `TabletColumn::_check_flag`: the truth value of
`_flags & (1 << pos)`. -/
def TabletColumn._check_flag (flags pos : Nat) : Bool :=
  (flags &&& (1 <<< pos)) != 0

/-- Rebuild a column with a new flag byte; shared body of the flag setters. -/
def TabletColumn.with_flags : TabletColumn → Nat → TabletColumn
  | .mk n u l a t il p s _ e, f => .mk n u l a t il p s f e

/-- Flag accessor `is_key()`. -/
def TabletColumn.is_key (c : TabletColumn) : Bool := TabletColumn._check_flag c.flags kIsKeyShift

/-- Flag accessor `is_nullable()`. -/
def TabletColumn.is_nullable (c : TabletColumn) : Bool := TabletColumn._check_flag c.flags kIsNullableShift

/-- Flag accessor `is_bf_column()`. -/
def TabletColumn.is_bf_column (c : TabletColumn) : Bool := TabletColumn._check_flag c.flags kIsBfColumnShift

/-- Flag accessor `has_bitmap_index()`. -/
def TabletColumn.has_bitmap_index (c : TabletColumn) : Bool := TabletColumn._check_flag c.flags kHasBitmapIndexShift

/-- Flag accessor `has_precision()`. -/
def TabletColumn.has_precision (c : TabletColumn) : Bool := TabletColumn._check_flag c.flags kHasPrecisionShift

/-- Flag accessor `has_scale()`. -/
def TabletColumn.has_scale (c : TabletColumn) : Bool := TabletColumn._check_flag c.flags kHasScaleShift

/-- Flag accessor `is_auto_increment()`. -/
def TabletColumn.is_auto_increment (c : TabletColumn) : Bool := TabletColumn._check_flag c.flags kHasAutoIncrementShift

/-- Flag accessor `is_sort_key()`. -/
def TabletColumn.is_sort_key (c : TabletColumn) : Bool := TabletColumn._check_flag c.flags kIsSortKey

/-- Flag mutator `set_is_key(value)`. -/
def TabletColumn.set_is_key (c : TabletColumn) (value : Bool) : TabletColumn :=
  c.with_flags (TabletColumn._set_flag c.flags kIsKeyShift value)

/-- Flag mutator `set_is_nullable(value)`. -/
def TabletColumn.set_is_nullable (c : TabletColumn) (value : Bool) : TabletColumn :=
  c.with_flags (TabletColumn._set_flag c.flags kIsNullableShift value)

/-- Flag mutator `set_is_bf_column(value)`. -/
def TabletColumn.set_is_bf_column (c : TabletColumn) (value : Bool) : TabletColumn :=
  c.with_flags (TabletColumn._set_flag c.flags kIsBfColumnShift value)

/-- Flag mutator `set_has_bitmap_index(value)`. -/
def TabletColumn.set_has_bitmap_index (c : TabletColumn) (value : Bool) : TabletColumn :=
  c.with_flags (TabletColumn._set_flag c.flags kHasBitmapIndexShift value)

/-- Flag mutator `set_is_auto_increment(value)`. -/
def TabletColumn.set_is_auto_increment (c : TabletColumn) (value : Bool) : TabletColumn :=
  c.with_flags (TabletColumn._set_flag c.flags kHasAutoIncrementShift value)

/-- Flag mutator `set_is_sort_key(value)`. -/
def TabletColumn.set_is_sort_key (c : TabletColumn) (value : Bool) : TabletColumn :=
  c.with_flags (TabletColumn._set_flag c.flags kIsSortKey value)

/-- Mutator `set_precision(precision)`: stores the value and sets the
has-precision bit. -/
def TabletColumn.set_precision : TabletColumn → Nat → TabletColumn
  | .mk n u l a t il _ s f e, p => .mk n u l a t il p s (TabletColumn._set_flag f kHasPrecisionShift true) e

/-- Mutator `set_scale(scale)`: stores the value and sets the has-scale bit. -/
def TabletColumn.set_scale : TabletColumn → Nat → TabletColumn
  | .mk n u l a t il p _ f e, s => .mk n u l a t il p s (TabletColumn._set_flag f kHasScaleShift true) e

/-- The shared empty string `TabletColumn::kEmptyDefaultValue` returned by
`default_value()` when no extra-fields block exists. -/
def TabletColumn.kEmptyDefaultValue : String := ""

/-- Accessor `has_default_value()`: `_extra_fields && _extra_fields->has_default_value`. -/
def TabletColumn.has_default_value (c : TabletColumn) : Bool :=
  match c.extra_fields with
  | some e => e.has_default_value
  | none => false

/-- Accessor `default_value()`: the block's string when the block exists,
otherwise the shared `kEmptyDefaultValue`. -/
def TabletColumn.default_value (c : TabletColumn) : String :=
  match c.extra_fields with
  | some e => e.default_value
  | none => TabletColumn.kEmptyDefaultValue

/-- Accessor `subcolumn_count()`: the block's sub-column count, or zero when
the block is absent. -/
def TabletColumn.subcolumn_count (c : TabletColumn) : Nat :=
  match c.extra_fields with
  | some e => e.sub_columns.length
  | none => 0

/-- Accessor `subcolumn(i)`.  The source performs
`_extra_fields->sub_columns[i]` with no null check and no bounds check; the
two undefined branches (absent block, index out of range) are made explicit
here as `none`, so that `some` characterises exactly the well-defined calls. -/
def TabletColumn.subcolumn (c : TabletColumn) (i : Nat) : Option TabletColumn :=
  match c.extra_fields with
  | some e => e.sub_columns.get? i
  | none => none

/-- Modelled value of `sizeof(TabletColumn)`, the fixed self size charged by
`mem_usage()`. -/
def kSizeofTabletColumn : Nat := 40

mutual

/-- Memory accounting `TabletColumn::mem_usage()`: self size plus name length
plus default-value buffer capacity (modelled as the string length; the shared
empty default contributes zero) plus the recursive usage of the sub-columns. -/
def TabletColumn.mem_usage : TabletColumn → Nat
  | .mk n _ _ _ _ _ _ _ _ none =>
      kSizeofTabletColumn + n.length + TabletColumn.kEmptyDefaultValue.length
  | .mk n _ _ _ _ _ _ _ _ (some e) =>
      kSizeofTabletColumn + n.length + e.default_value.length + memUsageList e.sub_columns

/-- The loop `for i < subcolumn_count: mem_usage += subcolumn(i).mem_usage()`. -/
def memUsageList : List TabletColumn → Nat
  | [] => 0
  | c :: cs => c.mem_usage + memUsageList cs

end

/-- The value-initialised `TabletColumn()`: empty name, zero scalars, zeroed
flag byte, no extra-fields block. -/
def defaultTabletColumn : TabletColumn := .mk "" 0 0 0 0 0 0 0 0 none

/-- Modelled value of `sizeof(TabletSchema)`, the fixed self size charged by
`TabletSchema::mem_usage()`. -/
def kSizeofTabletSchema : Nat := 208

/-- The tablet-level schema descriptor (`TabletSchema`).  Field names follow
the members of the class; the interning back-reference `_schema_map` is
modelled as the boolean `_shared` (null / non-null pointer), the
`std::unordered_set` view of the sort-key ordinals as a `Finset`, the
`std::unordered_map` unique-id index as an association list, and the `double`
bloom-filter rate as a rational.  The lazily built execution-schema cache and
the once-flag carry no schema content and are omitted. -/
structure TabletSchema where
  _id : Int
  _shared : Bool
  _bf_fpp : Rat
  _cols : List TabletColumn
  _num_rows_per_row_block : Nat
  _next_column_unique_id : Nat
  _num_key_columns : Nat
  _num_short_key_columns : Nat
  _sort_key_idxes : List Nat
  _sort_key_idxes_set : Finset Nat
  _keys_type : Nat
  _compression_type : Nat
  _field_id_to_index : List (Int × Nat)
  _has_bf_fpp : Bool
  _schema_version : Int

/-- Accessor `num_columns()`: the size of `_cols`. -/
def TabletSchema.num_columns (s : TabletSchema) : Nat := s._cols.length

/-- Accessor `sort_key_idxes()`. -/
def TabletSchema.sort_key_idxes (s : TabletSchema) : List Nat := s._sort_key_idxes

/-- Accessor `column(ordinal)`. -/
def TabletSchema.column (s : TabletSchema) (ordinal : Nat) : TabletColumn :=
  s._cols.getD ordinal defaultTabletColumn

/-- One iteration of the loops in `set_sort_key_idxes`:
`_cols[idx].set_is_sort_key(value)`.  An out-of-range ordinal, undefined in
the source, leaves the list unchanged here; the theorems only use in-range
ordinals. -/
def writeSortKeyFlag (cols : List TabletColumn) (idx : Nat) (value : Bool) : List TabletColumn :=
  match cols.get? idx with
  | some c => cols.set idx (c.set_is_sort_key value)
  | none => cols

/-- The loop `for idx in idxes: _cols[idx].set_is_sort_key(value)`. -/
def writeSortKeyFlags (cols : List TabletColumn) (idxes : List Nat) (value : Bool) : List TabletColumn :=
  idxes.foldl (fun cs idx => writeSortKeyFlag cs idx value) cols

/-- Mutator `TabletSchema::set_sort_key_idxes`, exactly as written in the
header: clear the is-sort-key flag of every column named by the old list,
replace the list, then set the flag of every column named by the new list.
Note the member `_sort_key_idxes_set` is not touched by the source. -/
def TabletSchema.set_sort_key_idxes (s : TabletSchema) (sort_key_idxes : List Nat) : TabletSchema :=
  let cols1 := writeSortKeyFlags s._cols s._sort_key_idxes false
  let cols2 := writeSortKeyFlags cols1 sort_key_idxes true
  { s with _cols := cols2, _sort_key_idxes := sort_key_idxes }

/-- Mutator `set_num_short_key_columns`. -/
def TabletSchema.set_num_short_key_columns (s : TabletSchema) (n : Nat) : TabletSchema :=
  { s with _num_short_key_columns := n }

/-- Memory accounting `TabletSchema::mem_usage()`: self size plus the loop
over the columns. -/
def TabletSchema.mem_usage (s : TabletSchema) : Nat :=
  s._cols.foldl (fun acc c => acc + c.mem_usage) kSizeofTabletSchema

/-- Concrete two-column schema used by the witnesses: ordinal 0 is the sort
key (flag byte 128), ordinal 1 is not. -/
def sampleSchema : TabletSchema :=
  { _id := 1
    _shared := false
    _bf_fpp := 0
    _cols := [.mk "k" 0 4 0 0 0 0 0 128 none, .mk "v" 1 4 0 0 0 0 0 0 none]
    _num_rows_per_row_block := 1024
    _next_column_unique_id := 2
    _num_key_columns := 0
    _num_short_key_columns := 0
    _sort_key_idxes := [0]
    _sort_key_idxes_set := {0}
    _keys_type := 0
    _compression_type := 0
    _field_id_to_index := [(0, 0), (1, 1)]
    _has_bf_fpp := false
    _schema_version := -1 }

/-- The sub-column sequence of a column: the block's list, or empty when the
block is absent. -/
def TabletColumn.sub_columns_list (c : TabletColumn) : List TabletColumn :=
  match c.extra_fields with
  | some e => e.sub_columns
  | none => []

/-- Concrete column with one nested sub-column, used by the C9 witness. -/
def columnWithOneSub : TabletColumn :=
  .mk "arr" 5 0 0 0 0 0 0 0 (some ⟨"", [defaultTabletColumn], false⟩)

/-- The decoded column descriptor (`ColumnPB`), per the external-interface
section of the spec: unique id, name, logical type, is-key, is-nullable,
aggregation policy, declared length, index-prefix length, optional precision,
optional scale, optional default value, the bloom-filter / bitmap-index /
auto-increment / sort-key booleans, and the nested children columns. -/
inductive ColumnPB : Type where
  | mk (unique_id : Int) (name : String) (ty : Int) (is_key : Bool) (is_nullable : Bool)
       (aggregation : Int) (len : Int) (index_length : Nat)
       (precision : Option Nat) (scale : Option Nat) (default_value : Option String)
       (is_bf_column : Bool) (has_bitmap_index : Bool) (is_auto_increment : Bool)
       (is_sort_key : Bool) (children_columns : List ColumnPB) : ColumnPB

/-- The flag byte assembled by the decode path: each boolean of the decoded
descriptor written into its shift position of a zeroed byte via `_set_flag`. -/
def packFlags (k nul bf bm hp hs ai sk : Bool) : Nat :=
  TabletColumn._set_flag
    (TabletColumn._set_flag
      (TabletColumn._set_flag
        (TabletColumn._set_flag
          (TabletColumn._set_flag
            (TabletColumn._set_flag
              (TabletColumn._set_flag
                (TabletColumn._set_flag 0 kIsKeyShift k)
                kIsNullableShift nul)
              kIsBfColumnShift bf)
            kHasBitmapIndexShift bm)
          kHasPrecisionShift hp)
        kHasScaleShift hs)
      kHasAutoIncrementShift ai)
    kIsSortKey sk

set_option maxRecDepth 4000 in

mutual

/-- Modelled from the spec: `TabletColumn::init_from_pb` (implementation not
in the sources at hand) populates every attribute of the decoded column
descriptor — identity, type, length, aggregation, index length, optional
precision/scale with their has-bits, the flag byte, the optional default
value and the nested children — allocating the extra-fields block only when
a default value or sub-columns are supplied. -/
def TabletColumn.init_from_pb : ColumnPB → TabletColumn
  | .mk uid n ty k nul agg len il prec sc none bf bm ai sk [] =>
      .mk n uid len agg ty il (prec.getD 0) (sc.getD 0)
        (packFlags k nul bf bm prec.isSome sc.isSome ai sk) none
  | .mk uid n ty k nul agg len il prec sc (some v) bf bm ai sk children =>
      .mk n uid len agg ty il (prec.getD 0) (sc.getD 0)
        (packFlags k nul bf bm prec.isSome sc.isSome ai sk)
        (some ⟨v, initColsFromPb children, true⟩)
  | .mk uid n ty k nul agg len il prec sc none bf bm ai sk (c :: cs) =>
      .mk n uid len agg ty il (prec.getD 0) (sc.getD 0)
        (packFlags k nul bf bm prec.isSome sc.isSome ai sk)
        (some ⟨"", initColsFromPb (c :: cs), false⟩)

/-- Decode of a sequence of column descriptors. -/
def initColsFromPb : List ColumnPB → List TabletColumn
  | [] => []
  | c :: cs => TabletColumn.init_from_pb c :: initColsFromPb cs

end

mutual

/-- Modelled from the spec: `TabletColumn::to_schema_pb` (implementation not
in the sources at hand) re-encodes every attribute losslessly: the flag byte
back into its booleans, precision/scale only when their has-bits are set, the
default value only when its presence flag is set, and the sub-columns
recursively. -/
def TabletColumn.to_schema_pb : TabletColumn → ColumnPB
  | .mk n uid len agg ty il prec sc flags none =>
      .mk uid n ty (TabletColumn._check_flag flags kIsKeyShift)
        (TabletColumn._check_flag flags kIsNullableShift) agg len il
        (if TabletColumn._check_flag flags kHasPrecisionShift then some prec else none)
        (if TabletColumn._check_flag flags kHasScaleShift then some sc else none)
        none
        (TabletColumn._check_flag flags kIsBfColumnShift)
        (TabletColumn._check_flag flags kHasBitmapIndexShift)
        (TabletColumn._check_flag flags kHasAutoIncrementShift)
        (TabletColumn._check_flag flags kIsSortKey) []
  | .mk n uid len agg ty il prec sc flags (some e) =>
      .mk uid n ty (TabletColumn._check_flag flags kIsKeyShift)
        (TabletColumn._check_flag flags kIsNullableShift) agg len il
        (if TabletColumn._check_flag flags kHasPrecisionShift then some prec else none)
        (if TabletColumn._check_flag flags kHasScaleShift then some sc else none)
        (if e.has_default_value then some e.default_value else none)
        (TabletColumn._check_flag flags kIsBfColumnShift)
        (TabletColumn._check_flag flags kHasBitmapIndexShift)
        (TabletColumn._check_flag flags kHasAutoIncrementShift)
        (TabletColumn._check_flag flags kIsSortKey) (toPbList e.sub_columns)

/-- Encode of a sequence of columns. -/
def toPbList : List TabletColumn → List ColumnPB
  | [] => []
  | c :: cs => c.to_schema_pb :: toPbList cs

end

/-- The decoded schema descriptor (`TabletSchemaPB`), per the
external-interface section of the spec: schema id, ordered column
descriptors, key-comparison policy, short-key column count, rows-per-block
hint, optional bloom-filter false-positive rate, compression policy, next
unused unique column id, and schema format version. -/
structure TabletSchemaPB where
  id : Int
  column : List ColumnPB
  keys_type : Nat
  num_short_key_columns : Nat
  num_rows_per_row_block : Nat
  bf_fpp : Option Rat
  compression_type : Nat
  next_column_unique_id : Nat
  schema_version : Int

/-- The unique-id index built while decoding: one `(unique_id, ordinal)` pair
per column, ordinals starting at `base`. -/
def mkFieldPairs : List TabletColumn → Nat → List (Int × Nat)
  | [], _ => []
  | c :: cs, base => (c.unique_id, base) :: mkFieldPairs cs (base + 1)

/-- Lookup in the unique-id index. -/
def lookupPairs : List (Int × Nat) → Int → Option Nat
  | [], _ => none
  | (u, j) :: rest, uid => if u = uid then some j else lookupPairs rest uid

/-- The ordinals of the columns whose is-sort-key flag is set, in ordinal
order; the decode path derives the sort-key list this way from the per-column
flags. -/
def sortKeyOrdinalsOf (cols : List TabletColumn) : List Nat :=
  (List.range cols.length).filter (fun i => (cols.getD i defaultTabletColumn).is_sort_key)

/-- Modelled from the spec: `TabletSchema::_init_from_pb` (implementation not
in the sources at hand) populates all columns, derives the key-column count
from the columns' key flags, derives the sort-key list and its set view from
the columns' sort-key flags, builds the unique-id index, and fails the decode
on duplicate unique ids. -/
def TabletSchema._init_from_pb (pb : TabletSchemaPB) : Option TabletSchema :=
  let cols := initColsFromPb pb.column
  if ((cols.map TabletColumn.unique_id).Nodup) then
    some { _id := pb.id
           _shared := false
           _bf_fpp := pb.bf_fpp.getD 0
           _cols := cols
           _num_rows_per_row_block := pb.num_rows_per_row_block
           _next_column_unique_id := pb.next_column_unique_id
           _num_key_columns := cols.countP (fun c => c.is_key)
           _num_short_key_columns := pb.num_short_key_columns
           _sort_key_idxes := sortKeyOrdinalsOf cols
           _sort_key_idxes_set := (sortKeyOrdinalsOf cols).toFinset
           _keys_type := pb.keys_type
           _compression_type := pb.compression_type
           _field_id_to_index := mkFieldPairs cols 0
           _has_bf_fpp := pb.bf_fpp.isSome
           _schema_version := pb.schema_version }
  else none

/-- Modelled from the spec: `TabletSchema::to_schema_pb` (implementation not
in the sources at hand) re-encodes the schema losslessly: every column and
every schema-level scalar of the decoded-descriptor format, with the
bloom-filter rate emitted only when present. -/
def TabletSchema.to_schema_pb (s : TabletSchema) : TabletSchemaPB :=
  { id := s._id
    column := toPbList s._cols
    keys_type := s._keys_type
    num_short_key_columns := s._num_short_key_columns
    num_rows_per_row_block := s._num_rows_per_row_block
    bf_fpp := if s._has_bf_fpp then some s._bf_fpp else none
    compression_type := s._compression_type
    next_column_unique_id := s._next_column_unique_id
    schema_version := s._schema_version }

/-- Content equality of two schema descriptors: equal column sequences and
equal schema-level scalar metadata (keys type, key and short-key counts,
compression policy, bloom-filter setting, sort-key list); identity, the
interning back-reference and derived caches are excluded. -/
def schemaContentEq (a b : TabletSchema) : Prop :=
  a._cols = b._cols ∧ a._keys_type = b._keys_type ∧
  a._num_key_columns = b._num_key_columns ∧
  a._num_short_key_columns = b._num_short_key_columns ∧
  a._compression_type = b._compression_type ∧
  a._has_bf_fpp = b._has_bf_fpp ∧ a._bf_fpp = b._bf_fpp ∧
  a._sort_key_idxes = b._sort_key_idxes

/-- The all-default schema value used only to strip `Option` wrappers in
concrete witnesses. -/
def emptyTabletSchema : TabletSchema :=
  { _id := 0
    _shared := false
    _bf_fpp := 0
    _cols := []
    _num_rows_per_row_block := 0
    _next_column_unique_id := 0
    _num_key_columns := 0
    _num_short_key_columns := 0
    _sort_key_idxes := []
    _sort_key_idxes_set := {}
    _keys_type := 0
    _compression_type := 0
    _field_id_to_index := []
    _has_bf_fpp := false
    _schema_version := -1 }

/-- Concrete serialized schema (two columns, the first a key and sort key)
used by the C6 witness. -/
def samplePB : TabletSchemaPB :=
  { id := 7
    column := [ColumnPB.mk 0 "k" 1 true false 0 4 0 none none none false false false true [],
               ColumnPB.mk 1 "v" 1 false true 0 8 0 none none none false false false false []]
    keys_type := 0
    num_short_key_columns := 1
    num_rows_per_row_block := 1024
    bf_fpp := none
    compression_type := 0
    next_column_unique_id := 2
    schema_version := 0 }

/-- The schema decoded from the concrete serialized schema. -/
def sampleDecoded : TabletSchema :=
  (TabletSchema._init_from_pb samplePB).getD emptyTabletSchema

/-- Modelled from the spec: `TabletSchema::field_index(col_unique_id)`
(implementation not in the sources at hand) returns the column's ordinal via
the unique-id index, or the not-found sentinel `-1`. -/
def TabletSchema.field_index (s : TabletSchema) (col_unique_id : Int) : Int :=
  match lookupPairs s._field_id_to_index col_unique_id with
  | some j => (j : Int)
  | none => -1

/-- Position of the first occurrence of an element in a list, used to remap a
surviving column's old ordinal to its new ordinal under a projection. -/
def findPos {α : Type} [DecidableEq α] : List α → α → Option Nat
  | [], _ => none
  | x :: xs, a => if x = a then some 0 else (findPos xs a).map (· + 1)

/-- Modelled from the spec: the projection constructor
`TabletSchema::create(tablet_schema, column_indexes)` (implementation not in
the sources at hand) builds a schema of exactly the selected columns in the
given order, recomputes the key-column count from the projected columns'
flags, keeps only sort-key ordinals whose column survived — remapped to new
ordinals in their original relative order — and rebuilds the unique-id
index; a selection naming an ordinal outside the base schema fails. -/
def TabletSchema.create (base : TabletSchema) (column_indexes : List Nat) : Option TabletSchema :=
  if (∀ o ∈ column_indexes, o < base._cols.length) then
    let cols := column_indexes.map (fun o => base._cols.getD o defaultTabletColumn)
    let sk := base._sort_key_idxes.filterMap (fun o => findPos column_indexes o)
    some { _id := 0
           _shared := false
           _bf_fpp := base._bf_fpp
           _cols := cols
           _num_rows_per_row_block := base._num_rows_per_row_block
           _next_column_unique_id := base._next_column_unique_id
           _num_key_columns := cols.countP (fun c => c.is_key)
           _num_short_key_columns := base._num_short_key_columns
           _sort_key_idxes := sk
           _sort_key_idxes_set := sk.toFinset
           _keys_type := base._keys_type
           _compression_type := base._compression_type
           _field_id_to_index := mkFieldPairs cols 0
           _has_bf_fpp := base._has_bf_fpp
           _schema_version := base._schema_version }
  else none

/-- Resolution of a unique-id selection to ordinals of the base columns; a
uid assigned to no column fails the resolution. -/
def resolveUids (cols : List TabletColumn) : List Int → Option (List Nat)
  | [] => some []
  | uid :: rest =>
    match findPos (cols.map TabletColumn.unique_id) uid, resolveUids cols rest with
    | some i, some is => some (i :: is)
    | _, _ => none

/-- Modelled from the spec: the projection constructor
`TabletSchema::create_with_uid(tablet_schema, unique_column_ids)`
(implementation not in the sources at hand) selects by column unique id —
tolerating ids of non-adjacent columns — resolving each id to its ordinal
and then projecting as by ordinal list; an unresolvable id fails the
derivation. -/
def TabletSchema.create_with_uid (base : TabletSchema) (unique_column_ids : List Int) :
    Option TabletSchema :=
  match resolveUids base._cols unique_column_ids with
  | some idxs => TabletSchema.create base idxs
  | none => none

/-- Concrete three-column base schema of the worked example in the spec:
`A` is the key, `C` is the sole sort key. -/
def projBase : TabletSchema :=
  { _id := 2
    _shared := false
    _bf_fpp := 0
    _cols := [.mk "A" 0 4 0 0 0 0 0 1 none, .mk "B" 1 4 0 0 0 0 0 0 none,
              .mk "C" 2 4 0 0 0 0 0 128 none]
    _num_rows_per_row_block := 0
    _next_column_unique_id := 3
    _num_key_columns := 1
    _num_short_key_columns := 1
    _sort_key_idxes := [2]
    _sort_key_idxes_set := {2}
    _keys_type := 0
    _compression_type := 0
    _field_id_to_index := [(0, 0), (1, 1), (2, 2)]
    _has_bf_fpp := false
    _schema_version := -1 }

/-- The projection of the worked example: columns `[C, A]`. -/
def projResult : TabletSchema :=
  (TabletSchema.create projBase [2, 0]).getD emptyTabletSchema

/-- The flag read is the bit of the byte: `_flags & (1 << pos)` is nonzero
exactly when bit `pos` of `_flags` is set. -/
theorem check_flag_eq_testBit (f pos : Nat) :
    TabletColumn._check_flag f pos = f.testBit pos := by
  unfold TabletColumn._check_flag
  rw [Nat.one_shiftLeft]
  cases h : f.testBit pos with
  | true =>
    have hne : f &&& 2 ^ pos ≠ 0 := by
      intro h0
      have hb := congrArg (fun n => n.testBit pos) h0
      simp only [Nat.testBit_and, h, Nat.testBit_two_pow_self, Bool.and_self,
        Nat.zero_testBit] at hb
      exact absurd hb (by decide)
    simpa [bne_iff_ne] using hne
  | false =>
    have h0 : f &&& 2 ^ pos = 0 := by
      refine Nat.eq_of_testBit_eq fun i => ?_
      rcases eq_or_ne i pos with rfl | hne
      · simp [Nat.testBit_and, h]
      · simp [Nat.testBit_and, Nat.testBit_two_pow_of_ne (Ne.symm hne)]
    simp [h0]

/-- Reading back the bit just written yields the written value. -/
theorem check_set_flag_self (f pos : Nat) (v : Bool) (hp : pos < 8) :
    TabletColumn._check_flag (TabletColumn._set_flag f pos v) pos = v := by
  cases v with
  | true =>
    simp [TabletColumn._set_flag, check_flag_eq_testBit, Nat.testBit_or,
      Nat.one_shiftLeft, Nat.testBit_two_pow_self]
  | false =>
    have h255 : Nat.testBit 255 pos = true := by
      have he : (255 : Nat) = 2 ^ 8 - 1 := by norm_num
      rw [he, Nat.testBit_two_pow_sub_one]
      simpa using hp
    rw [TabletColumn._set_flag, if_neg (by simp), check_flag_eq_testBit,
      Nat.testBit_and, Nat.testBit_xor, Nat.one_shiftLeft,
      Nat.testBit_two_pow_self, h255]
    simp

/-- Writing one bit leaves every other bit of the byte unchanged. -/
theorem check_set_flag_other (f pos q : Nat) (v : Bool) (hq : q < 8) (hne : pos ≠ q) :
    TabletColumn._check_flag (TabletColumn._set_flag f pos v) q =
      TabletColumn._check_flag f q := by
  cases v with
  | true =>
    simp [TabletColumn._set_flag, check_flag_eq_testBit, Nat.testBit_or,
      Nat.one_shiftLeft, Nat.testBit_two_pow_of_ne hne]
  | false =>
    have h255 : Nat.testBit 255 q = true := by
      have he : (255 : Nat) = 2 ^ 8 - 1 := by norm_num
      rw [he, Nat.testBit_two_pow_sub_one]
      simpa using hq
    rw [TabletColumn._set_flag, if_neg (by simp), check_flag_eq_testBit,
      check_flag_eq_testBit, Nat.testBit_and, Nat.testBit_xor, Nat.one_shiftLeft,
      Nat.testBit_two_pow_of_ne hne, h255]
    simp

/-- Setting the sort-key flag of a column stores exactly the written value. -/
theorem is_sort_key_set_is_sort_key (c : TabletColumn) (v : Bool) :
    (c.set_is_sort_key v).is_sort_key = v := by
  cases c with
  | mk n u l a t il p s f e =>
    simpa [TabletColumn.set_is_sort_key, TabletColumn.with_flags,
      TabletColumn.is_sort_key, TabletColumn.flags] using
      check_set_flag_self f kIsSortKey v (by norm_num [kIsSortKey])

/-- A single flag write preserves the column count. -/
theorem length_writeSortKeyFlag (cols : List TabletColumn) (idx : Nat) (v : Bool) :
    (writeSortKeyFlag cols idx v).length = cols.length := by
  unfold writeSortKeyFlag
  cases cols.get? idx <;> simp

/-- The flag-writing loop preserves the column count. -/
theorem length_writeSortKeyFlags (cols : List TabletColumn) (idxes : List Nat) (v : Bool) :
    (writeSortKeyFlags cols idxes v).length = cols.length := by
  induction idxes generalizing cols with
  | nil => rfl
  | cons a rest ih =>
    rw [writeSortKeyFlags, List.foldl_cons, ← writeSortKeyFlags, ih,
      length_writeSortKeyFlag]

/-- Setting the sort-key flag changes no other member of the column. -/
theorem set_is_sort_key_preserves (c : TabletColumn) (v : Bool) :
    (c.set_is_sort_key v).col_name = c.col_name ∧
    (c.set_is_sort_key v).unique_id = c.unique_id ∧
    (c.set_is_sort_key v).extra_fields = c.extra_fields := by
  cases c with
  | mk n u l a t il p s f e =>
    exact ⟨rfl, rfl, rfl⟩

/-- The sort-key flag of column `i` after the flag-writing loop: the written
value when `i` is named by the loop, the old flag otherwise. -/
theorem is_sort_key_writeSortKeyFlags (idxes : List Nat) (cols : List TabletColumn)
    (v : Bool) (i : Nat) (hi : i < cols.length) :
    ((writeSortKeyFlags cols idxes v).getD i defaultTabletColumn).is_sort_key =
      if i ∈ idxes then v else (cols.getD i defaultTabletColumn).is_sort_key := by
  induction idxes generalizing cols with
  | nil => simp [writeSortKeyFlags]
  | cons a rest ih =>
    rw [writeSortKeyFlags, List.foldl_cons, ← writeSortKeyFlags]
    have hi' : i < (writeSortKeyFlag cols a v).length := by
      rw [length_writeSortKeyFlag]; exact hi
    rw [ih _ hi']
    by_cases hmem : i ∈ rest
    · simp [hmem]
    · rcases eq_or_ne i a with rfl | hne
      · have hget : cols.get? i = some (cols.getD i defaultTabletColumn) := by
          rw [List.get?_eq_getElem?, List.getElem?_eq_getElem hi,
            List.getD_eq_getElem?_getD, List.getElem?_eq_getElem hi]
          rfl
        rw [writeSortKeyFlag, hget]
        simp only [hmem, if_false, List.mem_cons, true_or, if_true]
        rw [List.getD_eq_getElem?_getD, List.getElem?_set_self hi]
        simpa using is_sort_key_set_is_sort_key (cols.getD i defaultTabletColumn) v
      · have hsame : (writeSortKeyFlag cols a v).getD i defaultTabletColumn =
            cols.getD i defaultTabletColumn := by
          rw [writeSortKeyFlag]
          cases hga : cols.get? a with
          | none => rfl
          | some c =>
            rw [List.getD_eq_getElem?_getD, List.getElem?_set_ne (Ne.symm hne),
              List.getD_eq_getElem?_getD]
        rw [hsame]
        simp [hmem, hne]

/-- C1: for every schema whose current sort-key list and replacement list
`xs` name only valid ordinals, and whose is-sort-key flags are covered by the
current list (the data-model invariant of a schema descriptor), after
`set_sort_key_idxes(xs)` the sort-key list equals `xs` and every column's
`is_sort_key()` flag holds exactly when its ordinal appears in `xs`; no stale
flag survives on a column of the old list that is not in `xs`. -/
theorem set_sort_key_idxes_flag_consistency (s : TabletSchema) (xs : List Nat)
    (hold : ∀ i ∈ s._sort_key_idxes, i < s.num_columns)
    (hnew : ∀ i ∈ xs, i < s.num_columns)
    (hinv : ∀ i, i < s.num_columns → (s.column i).is_sort_key = true → i ∈ s._sort_key_idxes) :
    (s.set_sort_key_idxes xs).sort_key_idxes = xs ∧
    ∀ i, i < (s.set_sort_key_idxes xs).num_columns →
      (((s.set_sort_key_idxes xs).column i).is_sort_key = true ↔ i ∈ xs) := by
  refine ⟨rfl, ?_⟩
  intro i hi
  have hlen : (s.set_sort_key_idxes xs).num_columns = s.num_columns := by
    simp only [TabletSchema.set_sort_key_idxes, TabletSchema.num_columns,
      length_writeSortKeyFlags]
  rw [hlen] at hi
  have hi1 : i < (writeSortKeyFlags s._cols s._sort_key_idxes false).length := by
    rw [length_writeSortKeyFlags]; exact hi
  have hcol : (s.set_sort_key_idxes xs).column i =
      (writeSortKeyFlags (writeSortKeyFlags s._cols s._sort_key_idxes false) xs
        true).getD i defaultTabletColumn := rfl
  rw [hcol, is_sort_key_writeSortKeyFlags xs _ true i hi1]
  by_cases hx : i ∈ xs
  · simp [hx]
  · rw [if_neg hx, is_sort_key_writeSortKeyFlags s._sort_key_idxes s._cols false i hi]
    by_cases hoi : i ∈ s._sort_key_idxes
    · simp [hoi, hx]
    · rw [if_neg hoi]
      constructor
      · intro hflag
        exact absurd (hinv i hi hflag) hoi
      · intro hx'
        exact absurd hx' hx

/-- Witness for C1 at the concrete schema: replacing the sort-key list `[0]`
by `[1]` yields list `[1]` and flags that agree with it on both columns. -/
theorem set_sort_key_idxes_flag_consistency_witness :
    (sampleSchema.set_sort_key_idxes [1]).sort_key_idxes = [1] ∧
    ∀ i, i < (sampleSchema.set_sort_key_idxes [1]).num_columns →
      (((sampleSchema.set_sort_key_idxes [1]).column i).is_sort_key = true ↔ i ∈ [1]) :=
  set_sort_key_idxes_flag_consistency sampleSchema [1] (by decide) (by decide) (by decide)

/-- C3, counterexample: `set_sort_key_idxes` replaces the ordered sort-key
list but never touches `_sort_key_idxes_set`, so after replacing `[0]` by
`[1]` on the sample schema the ordinal 1 is in the list yet not in the set
view — the two representations disagree. -/
theorem set_sort_key_idxes_stale_set_view :
    1 ∈ (sampleSchema.set_sort_key_idxes [1]).sort_key_idxes ∧
    1 ∉ (sampleSchema.set_sort_key_idxes [1])._sort_key_idxes_set := by
  decide

/-- C3, amended: `set_sort_key_idxes` installs the new ordered list but
leaves the set view exactly as it was before the call, so the set view can
disagree with the list until it is rebuilt by a construction path. -/
theorem set_sort_key_idxes_set_view_unchanged (s : TabletSchema) (xs : List Nat) :
    (s.set_sort_key_idxes xs).sort_key_idxes = xs ∧
    (s.set_sort_key_idxes xs)._sort_key_idxes_set = s._sort_key_idxes_set :=
  ⟨rfl, rfl⟩

/-- C4: a column descriptor with no extra-fields block reports no default
value and zero sub-columns, and its memory usage is exactly the base size
plus the name length — no extra-fields overhead is charged. -/
theorem column_without_extra_fields (c : TabletColumn) (h : c.extra_fields = none) :
    c.has_default_value = false ∧ c.subcolumn_count = 0 ∧
    c.mem_usage = kSizeofTabletColumn + c.col_name.length := by
  cases c with
  | mk n u l a t il p sc f e =>
    cases e with
    | none =>
      refine ⟨rfl, rfl, ?_⟩
      simp [TabletColumn.mem_usage, TabletColumn.kEmptyDefaultValue,
        TabletColumn.col_name]
    | some e' => simp [TabletColumn.extra_fields] at h

/-- Witness for C4 at a concrete column with no extra-fields block. -/
theorem column_without_extra_fields_witness :
    (TabletColumn.mk "city" 7 4 0 0 0 0 0 3 none).has_default_value = false ∧
    (TabletColumn.mk "city" 7 4 0 0 0 0 0 3 none).subcolumn_count = 0 ∧
    (TabletColumn.mk "city" 7 4 0 0 0 0 0 3 none).mem_usage =
      kSizeofTabletColumn + (TabletColumn.mk "city" 7 4 0 0 0 0 0 3 none).col_name.length :=
  column_without_extra_fields (.mk "city" 7 4 0 0 0 0 0 3 none) rfl

/-- The recursive sub-column accounting loop equals the sum of the mapped
usages. -/
theorem memUsageList_eq_sum : ∀ l : List TabletColumn,
    memUsageList l = (l.map TabletColumn.mem_usage).sum
  | [] => rfl
  | c :: cs => by rw [memUsageList, memUsageList_eq_sum cs, List.map_cons, List.sum_cons]

/-- The accumulating loop of `TabletSchema::mem_usage` equals base plus sum. -/
theorem foldl_mem_usage (l : List TabletColumn) (a : Nat) :
    l.foldl (fun acc c => acc + c.mem_usage) a = a + (l.map TabletColumn.mem_usage).sum := by
  induction l generalizing a with
  | nil => simp
  | cons c cs ih => rw [List.foldl_cons, ih, List.map_cons, List.sum_cons]; omega

/-- C5: a schema's memory usage is its base size plus the sum of its columns'
usages, and each column's usage is its own base size, name length and
default-value buffer plus the recursively-accumulated usage of its nested
sub-columns. -/
theorem schema_mem_usage_eq (s : TabletSchema) :
    s.mem_usage = kSizeofTabletSchema + (s._cols.map TabletColumn.mem_usage).sum ∧
    ∀ c : TabletColumn, c.mem_usage = kSizeofTabletColumn + c.col_name.length +
      c.default_value.length + (c.sub_columns_list.map TabletColumn.mem_usage).sum := by
  constructor
  · exact foldl_mem_usage s._cols kSizeofTabletSchema
  · intro c
    cases c with
    | mk n u l a t il p sc f e =>
      cases e with
      | none =>
        simp [TabletColumn.mem_usage, TabletColumn.sub_columns_list,
          TabletColumn.extra_fields, TabletColumn.default_value,
          TabletColumn.kEmptyDefaultValue, TabletColumn.col_name]
      | some e' =>
        simp [TabletColumn.mem_usage, TabletColumn.sub_columns_list,
          TabletColumn.extra_fields, TabletColumn.default_value,
          TabletColumn.col_name, memUsageList_eq_sum]

/-- C8: writing any one of the eight named flag bits of the packed byte — the
shifts `kIsKeyShift` through `kIsSortKey`, including the has-precision and
has-scale bits written by `set_precision`/`set_scale` — changes only that
bit: every other named flag reads back unchanged, and the written flag reads
back as the written value. -/
theorem flag_write_frame (f : Nat) (v : Bool) (pos q : Nat)
    (hpos : pos ∈ [kIsKeyShift, kIsNullableShift, kIsBfColumnShift, kHasBitmapIndexShift,
      kHasPrecisionShift, kHasScaleShift, kHasAutoIncrementShift, kIsSortKey])
    (hq : q ∈ [kIsKeyShift, kIsNullableShift, kIsBfColumnShift, kHasBitmapIndexShift,
      kHasPrecisionShift, kHasScaleShift, kHasAutoIncrementShift, kIsSortKey])
    (hne : pos ≠ q) :
    TabletColumn._check_flag (TabletColumn._set_flag f pos v) q =
      TabletColumn._check_flag f q ∧
    TabletColumn._check_flag (TabletColumn._set_flag f pos v) pos = v := by
  have h8 : ∀ r ∈ [kIsKeyShift, kIsNullableShift, kIsBfColumnShift, kHasBitmapIndexShift,
      kHasPrecisionShift, kHasScaleShift, kHasAutoIncrementShift, kIsSortKey], r < 8 := by
    decide
  exact ⟨check_set_flag_other f pos q v (h8 q hq) hne,
    check_set_flag_self f pos v (h8 pos hpos)⟩

/-- Witness for C8: writing the sort-key bit of the byte 37 leaves the is-key
bit unchanged and reads back as set. -/
theorem flag_write_frame_witness :
    TabletColumn._check_flag (TabletColumn._set_flag 37 kIsSortKey true) kIsKeyShift =
      TabletColumn._check_flag 37 kIsKeyShift ∧
    TabletColumn._check_flag (TabletColumn._set_flag 37 kIsSortKey true) kIsSortKey = true :=
  flag_write_frame 37 true kIsSortKey kIsKeyShift (by decide) (by decide) (by decide)

/-- C9: `subcolumn(i)` is well defined exactly under the precondition
`i < subcolumn_count()`: the optionalised model is `some` iff the
precondition holds (so the absent-block and out-of-range failure branches
are unreachable under it), and for a column with zero sub-columns every call
falls into a failure branch. -/
theorem subcolumn_defined_iff (c : TabletColumn) (i : Nat) :
    ((c.subcolumn i).isSome = true ↔ i < c.subcolumn_count) ∧
    (c.subcolumn_count = 0 → c.subcolumn i = none) := by
  cases c with
  | mk n u l a t il p s f e =>
    cases e with
    | none =>
      refine ⟨?_, fun _ => rfl⟩
      simp [TabletColumn.subcolumn, TabletColumn.subcolumn_count, TabletColumn.extra_fields]
    | some e' =>
      constructor
      · rw [show (TabletColumn.mk n u l a t il p s f (some e')).subcolumn i =
            e'.sub_columns.get? i from rfl,
          show (TabletColumn.mk n u l a t il p s f (some e')).subcolumn_count =
            e'.sub_columns.length from rfl]
        constructor
        · intro hs
          by_contra hlt
          rw [List.get?_eq_none.mpr (Nat.le_of_not_lt hlt)] at hs
          simp at hs
        · intro hlt
          rw [List.get?_eq_getElem?, List.getElem?_eq_getElem hlt]
          rfl
      · intro hz
        rw [show (TabletColumn.mk n u l a t il p s f (some e')).subcolumn_count =
            e'.sub_columns.length from rfl] at hz
        rw [show (TabletColumn.mk n u l a t il p s f (some e')).subcolumn i =
            e'.sub_columns.get? i from rfl]
        exact List.get?_eq_none.mpr (by omega)

/-- Witness for C9: with one sub-column present, index 0 is well defined;
on the default column, which has no sub-columns, index 3 hits a failure
branch. -/
theorem subcolumn_defined_iff_witness :
    ((columnWithOneSub.subcolumn 0).isSome = true) ∧
    defaultTabletColumn.subcolumn 3 = none :=
  ⟨(subcolumn_defined_iff columnWithOneSub 0).1.mpr (by decide),
   (subcolumn_defined_iff defaultTabletColumn 3).2 (by decide)⟩

/-- C10: `default_value()` is total — with no extra-fields block it returns
the shared empty string instead of dereferencing the absent block — and
`has_default_value()` is false exactly when the block is absent or present
with its has-default-value flag unset. -/
theorem default_value_total (c : TabletColumn) :
    (c.extra_fields = none → c.default_value = TabletColumn.kEmptyDefaultValue) ∧
    (c.has_default_value = false ↔
      c.extra_fields = none ∨ ∃ e, c.extra_fields = some e ∧ e.has_default_value = false) := by
  cases c with
  | mk n u l a t il p s f e =>
    cases e with
    | none =>
      exact ⟨fun _ => rfl, by simp [TabletColumn.has_default_value, TabletColumn.extra_fields]⟩
    | some e' =>
      constructor
      · intro h
        simp [TabletColumn.extra_fields] at h
      · simp [TabletColumn.has_default_value, TabletColumn.extra_fields]

/-- Witness for C10 at the default column (no extra-fields block): the
default value is the shared empty string and `has_default_value()` is
false. -/
theorem default_value_total_witness :
    defaultTabletColumn.default_value = TabletColumn.kEmptyDefaultValue ∧
    defaultTabletColumn.has_default_value = false :=
  ⟨(default_value_total defaultTabletColumn).1 rfl,
   (default_value_total defaultTabletColumn).2.mpr (Or.inl rfl)⟩

/-- Reading any of the eight shift positions of a packed byte yields the
boolean that was packed there. -/
theorem packFlags_spec (k nul bf bm hp hs ai sk : Bool) :
    TabletColumn._check_flag (packFlags k nul bf bm hp hs ai sk) kIsKeyShift = k ∧
    TabletColumn._check_flag (packFlags k nul bf bm hp hs ai sk) kIsNullableShift = nul ∧
    TabletColumn._check_flag (packFlags k nul bf bm hp hs ai sk) kIsBfColumnShift = bf ∧
    TabletColumn._check_flag (packFlags k nul bf bm hp hs ai sk) kHasBitmapIndexShift = bm ∧
    TabletColumn._check_flag (packFlags k nul bf bm hp hs ai sk) kHasPrecisionShift = hp ∧
    TabletColumn._check_flag (packFlags k nul bf bm hp hs ai sk) kHasScaleShift = hs ∧
    TabletColumn._check_flag (packFlags k nul bf bm hp hs ai sk) kHasAutoIncrementShift = ai ∧
    TabletColumn._check_flag (packFlags k nul bf bm hp hs ai sk) kIsSortKey = sk := by
  revert k nul bf bm hp hs ai sk
  decide

/-- Repacking an optional through presence test and defaulted read restores
it. -/
theorem opt_repack {α : Type} (o : Option α) (d : α) :
    (if o.isSome then some (o.getD d) else none) = o := by
  cases o <;> simp

/-- Encoding a freshly decoded column restores the decoded descriptor except
that the children are themselves decode-encode normalised. -/
theorem to_pb_init_from_pb (uid : Int) (n : String) (ty : Int) (k nul : Bool)
    (agg len : Int) (il : Nat) (prec sc : Option Nat) (dv : Option String)
    (bf bm ai sk : Bool) (children : List ColumnPB) :
    TabletColumn.to_schema_pb
        (TabletColumn.init_from_pb (.mk uid n ty k nul agg len il prec sc dv bf bm ai sk children)) =
      .mk uid n ty k nul agg len il prec sc dv bf bm ai sk
        (toPbList (initColsFromPb children)) := by
  obtain ⟨h0, h1, h2, h3, h4, h5, h6, h7⟩ :=
    packFlags_spec k nul bf bm prec.isSome sc.isSome ai sk
  cases dv with
  | some v =>
    rw [show TabletColumn.init_from_pb (.mk uid n ty k nul agg len il prec sc (some v) bf bm ai sk children) =
        .mk n uid len agg ty il (prec.getD 0) (sc.getD 0)
          (packFlags k nul bf bm prec.isSome sc.isSome ai sk)
          (some ⟨v, initColsFromPb children, true⟩) from rfl]
    rw [show TabletColumn.to_schema_pb (.mk n uid len agg ty il (prec.getD 0) (sc.getD 0)
          (packFlags k nul bf bm prec.isSome sc.isSome ai sk)
          (some ⟨v, initColsFromPb children, true⟩)) =
        .mk uid n ty _ _ agg len il _ _ _ _ _ _ _ (toPbList (initColsFromPb children)) from rfl]
    rw [h0, h1, h2, h3, h4, h5, h6, h7, opt_repack, opt_repack]
    rfl
  | none =>
    cases children with
    | nil =>
      rw [show TabletColumn.init_from_pb (.mk uid n ty k nul agg len il prec sc none bf bm ai sk []) =
          .mk n uid len agg ty il (prec.getD 0) (sc.getD 0)
            (packFlags k nul bf bm prec.isSome sc.isSome ai sk) none from rfl]
      rw [show TabletColumn.to_schema_pb (.mk n uid len agg ty il (prec.getD 0) (sc.getD 0)
            (packFlags k nul bf bm prec.isSome sc.isSome ai sk) none) =
          .mk uid n ty _ _ agg len il _ _ none _ _ _ _ [] from rfl]
      rw [h0, h1, h2, h3, h4, h5, h6, h7, opt_repack, opt_repack]
      rfl
    | cons c cs =>
      rw [show TabletColumn.init_from_pb (.mk uid n ty k nul agg len il prec sc none bf bm ai sk (c :: cs)) =
          .mk n uid len agg ty il (prec.getD 0) (sc.getD 0)
            (packFlags k nul bf bm prec.isSome sc.isSome ai sk)
            (some ⟨"", initColsFromPb (c :: cs), false⟩) from rfl]
      rw [show TabletColumn.to_schema_pb (.mk n uid len agg ty il (prec.getD 0) (sc.getD 0)
            (packFlags k nul bf bm prec.isSome sc.isSome ai sk)
            (some ⟨"", initColsFromPb (c :: cs), false⟩)) =
          .mk uid n ty _ _ agg len il _ _ (if false then some "" else none) _ _ _ _
            (toPbList (initColsFromPb (c :: cs))) from rfl]
      rw [h0, h1, h2, h3, h4, h5, h6, h7, opt_repack, opt_repack]
      rfl

mutual

/-- Decode after encode after decode is decode, for one column descriptor. -/
theorem column_pb_roundtrip : ∀ pb : ColumnPB,
    TabletColumn.init_from_pb (TabletColumn.to_schema_pb (TabletColumn.init_from_pb pb)) =
      TabletColumn.init_from_pb pb
  | .mk uid n ty k nul agg len il prec sc dv bf bm ai sk children => by
    rw [to_pb_init_from_pb]
    cases dv with
    | some v =>
      rw [show TabletColumn.init_from_pb
            (.mk uid n ty k nul agg len il prec sc (some v) bf bm ai sk
              (toPbList (initColsFromPb children))) =
          .mk n uid len agg ty il (prec.getD 0) (sc.getD 0)
            (packFlags k nul bf bm prec.isSome sc.isSome ai sk)
            (some ⟨v, initColsFromPb (toPbList (initColsFromPb children)), true⟩) from rfl]
      rw [show TabletColumn.init_from_pb
            (.mk uid n ty k nul agg len il prec sc (some v) bf bm ai sk children) =
          .mk n uid len agg ty il (prec.getD 0) (sc.getD 0)
            (packFlags k nul bf bm prec.isSome sc.isSome ai sk)
            (some ⟨v, initColsFromPb children, true⟩) from rfl]
      rw [column_pb_list_roundtrip children]
    | none =>
      cases children with
      | nil => rfl
      | cons c cs =>
        rw [show TabletColumn.init_from_pb
              (.mk uid n ty k nul agg len il prec sc none bf bm ai sk
                (toPbList (initColsFromPb (c :: cs)))) =
            .mk n uid len agg ty il (prec.getD 0) (sc.getD 0)
              (packFlags k nul bf bm prec.isSome sc.isSome ai sk)
              (some ⟨"", initColsFromPb (toPbList (initColsFromPb (c :: cs))), false⟩) from rfl]
        rw [show TabletColumn.init_from_pb
              (.mk uid n ty k nul agg len il prec sc none bf bm ai sk (c :: cs)) =
            .mk n uid len agg ty il (prec.getD 0) (sc.getD 0)
              (packFlags k nul bf bm prec.isSome sc.isSome ai sk)
              (some ⟨"", initColsFromPb (c :: cs), false⟩) from rfl]
        rw [column_pb_list_roundtrip (c :: cs)]

/-- Decode after encode after decode is decode, for a column sequence. -/
theorem column_pb_list_roundtrip : ∀ pbs : List ColumnPB,
    initColsFromPb (toPbList (initColsFromPb pbs)) = initColsFromPb pbs
  | [] => rfl
  | pb :: pbs => by
    rw [show initColsFromPb (pb :: pbs) =
        TabletColumn.init_from_pb pb :: initColsFromPb pbs from rfl]
    rw [show toPbList (TabletColumn.init_from_pb pb :: initColsFromPb pbs) =
        TabletColumn.to_schema_pb (TabletColumn.init_from_pb pb) ::
          toPbList (initColsFromPb pbs) from rfl]
    rw [show initColsFromPb (TabletColumn.to_schema_pb (TabletColumn.init_from_pb pb) ::
          toPbList (initColsFromPb pbs)) =
        TabletColumn.init_from_pb (TabletColumn.to_schema_pb (TabletColumn.init_from_pb pb)) ::
          initColsFromPb (toPbList (initColsFromPb pbs)) from rfl]
    rw [column_pb_roundtrip pb, column_pb_list_roundtrip pbs]

end

/-- Decoding the re-encoding of a freshly decoded schema restores it
exactly. -/
theorem init_pb_of_to_schema_pb (pb : TabletSchemaPB) (s : TabletSchema)
    (h : TabletSchema._init_from_pb pb = some s) :
    TabletSchema._init_from_pb s.to_schema_pb = some s := by
  simp only [TabletSchema._init_from_pb] at h
  by_cases hnd : ((initColsFromPb pb.column).map TabletColumn.unique_id).Nodup
  · rw [if_pos hnd] at h
    have hs := Option.some.inj h
    subst hs
    simp only [TabletSchema.to_schema_pb, TabletSchema._init_from_pb]
    rw [show (if ((pb.bf_fpp).isSome) then some ((pb.bf_fpp).getD 0) else none) =
        pb.bf_fpp from opt_repack _ _]
    rw [column_pb_list_roundtrip pb.column]
    rw [if_pos hnd]
  · rw [if_neg hnd] at h
    exact absurd h (by simp)

/-- C6: decoding a valid serialized schema, re-encoding it, and decoding
again succeeds and yields a schema descriptor content-equal to the one
decoded directly; and for a single column descriptor,
decode-encode-decode equals decode. -/
theorem schema_pb_roundtrip (pb : TabletSchemaPB) (s : TabletSchema)
    (h : TabletSchema._init_from_pb pb = some s) :
    (∃ s2, TabletSchema._init_from_pb s.to_schema_pb = some s2 ∧ schemaContentEq s2 s) ∧
    ∀ cpb : ColumnPB,
      TabletColumn.init_from_pb (TabletColumn.to_schema_pb (TabletColumn.init_from_pb cpb)) =
        TabletColumn.init_from_pb cpb :=
  ⟨⟨s, init_pb_of_to_schema_pb pb s h, ⟨rfl, rfl, rfl, rfl, rfl, rfl, rfl, rfl⟩⟩,
   fun cpb => column_pb_roundtrip cpb⟩

/-- Witness for C6 at the concrete serialized schema. -/
theorem schema_pb_roundtrip_witness :
    (∃ s2, TabletSchema._init_from_pb sampleDecoded.to_schema_pb = some s2 ∧
      schemaContentEq s2 sampleDecoded) ∧
    ∀ cpb : ColumnPB,
      TabletColumn.init_from_pb (TabletColumn.to_schema_pb (TabletColumn.init_from_pb cpb)) =
        TabletColumn.init_from_pb cpb :=
  schema_pb_roundtrip samplePB sampleDecoded (by rfl)

/-- Looking up the unique id of the column at ordinal `i` in the decode-built
index finds `base + i`, provided the unique ids are pairwise distinct. -/
theorem lookupPairs_mkFieldPairs_self (cols : List TabletColumn) (base : Nat) :
    ∀ i (hi : i < cols.length), (cols.map TabletColumn.unique_id).Nodup →
      lookupPairs (mkFieldPairs cols base) ((cols.get ⟨i, hi⟩).unique_id) = some (base + i) := by
  induction cols generalizing base with
  | nil => intro i hi; exact absurd hi (by simp)
  | cons c cs ih =>
    intro i hi hnd
    rw [List.map_cons, List.nodup_cons] at hnd
    cases i with
    | zero =>
      rw [show (c :: cs).get ⟨0, hi⟩ = c from rfl, mkFieldPairs, lookupPairs, if_pos rfl]
      congr 1
    | succ j =>
      have hj : j < cs.length := by simpa using hi
      have hmem : (cs.get ⟨j, hj⟩).unique_id ∈ cs.map TabletColumn.unique_id :=
        List.mem_map_of_mem TabletColumn.unique_id (cs.get_mem j hj)
      have hne : c.unique_id ≠ (cs.get ⟨j, hj⟩).unique_id := by
        intro he
        exact hnd.1 (he ▸ hmem)
      rw [show (c :: cs).get ⟨j + 1, hi⟩ = cs.get ⟨j, hj⟩ from rfl, mkFieldPairs, lookupPairs,
        if_neg hne, ih (base + 1) j hj hnd.2]
      congr 1
      omega

/-- Looking up a unique id assigned to no column of the index yields none. -/
theorem lookupPairs_mkFieldPairs_none (cols : List TabletColumn) (base : Nat) (uid : Int)
    (h : ∀ c ∈ cols, c.unique_id ≠ uid) :
    lookupPairs (mkFieldPairs cols base) uid = none := by
  induction cols generalizing base with
  | nil => rfl
  | cons c cs ih =>
    rw [mkFieldPairs, lookupPairs, if_neg (h c (List.mem_cons_self c cs))]
    exact ih (base + 1) fun c' hc' => h c' (List.mem_cons_of_mem c hc')

/-- C7: on a schema whose unique-id index is the decode-built inverse of the
column sequence, `field_index(uid)` returns the ordinal of the column that
owns `uid` (unique ids being pairwise distinct), and returns the not-found
sentinel `-1` for a uid assigned to no column — never a valid ordinal. -/
theorem field_index_spec (s : TabletSchema) (uid : Int)
    (hmap : s._field_id_to_index = mkFieldPairs s._cols 0) :
    (∀ i (hi : i < s._cols.length), (s._cols.get ⟨i, hi⟩).unique_id = uid →
      (s._cols.map TabletColumn.unique_id).Nodup → s.field_index uid = i) ∧
    ((∀ c ∈ s._cols, c.unique_id ≠ uid) → s.field_index uid = -1) := by
  constructor
  · intro i hi huid hnd
    rw [TabletSchema.field_index, hmap, ← huid,
      lookupPairs_mkFieldPairs_self s._cols 0 i hi hnd]
    simp
  · intro hnone
    rw [TabletSchema.field_index, hmap, lookupPairs_mkFieldPairs_none s._cols 0 uid hnone]

/-- Witness for C7 on the concrete sample schema: uid 1 lives at ordinal 1,
and uid 99 is assigned to no column so the sentinel is returned. -/
theorem field_index_spec_witness :
    sampleSchema.field_index 1 = 1 ∧ sampleSchema.field_index 99 = -1 :=
  ⟨(field_index_spec sampleSchema 1 rfl).1 1 (by decide) (by decide) (by decide),
   (field_index_spec sampleSchema 99 rfl).2 (by decide)⟩

/-- A found position is in range and holds the sought element. -/
theorem findPos_some_spec {α : Type} [DecidableEq α] :
    ∀ (l : List α) (a : α) (j : Nat), findPos l a = some j →
      ∃ h : j < l.length, l.get ⟨j, h⟩ = a
  | [], a, j => by intro h; simp [findPos] at h
  | x :: xs, a, j => by
    intro h
    rw [findPos] at h
    by_cases hx : x = a
    · rw [if_pos hx] at h
      injection h with h'
      subst h'
      exact ⟨by simp, hx⟩
    · rw [if_neg hx] at h
      cases hfp : findPos xs a with
      | none => rw [hfp] at h; simp at h
      | some i =>
        rw [hfp, Option.map_some'] at h
        injection h with h'
        subst h'
        obtain ⟨hlt, hget⟩ := findPos_some_spec xs a i hfp
        exact ⟨by simpa using hlt, by simpa using hget⟩

/-- An element is found exactly when it is in the list. -/
theorem findPos_none_iff {α : Type} [DecidableEq α] :
    ∀ (l : List α) (a : α), findPos l a = none ↔ a ∉ l
  | [], a => by simp [findPos]
  | x :: xs, a => by
    rw [findPos]
    by_cases hx : x = a
    · simp [hx]
    · rw [if_neg hx]
      rw [Option.map_eq_none']
      rw [findPos_none_iff xs a]
      constructor
      · intro hn
        simp only [List.mem_cons]
        rintro (rfl | hmem)
        · exact hx rfl
        · exact hn hmem
      · intro hn hmem
        exact hn (List.mem_cons_of_mem x hmem)

/-- With pairwise-distinct elements, the element at position `j` is found at
position `j`. -/
theorem findPos_get_of_nodup {α : Type} [DecidableEq α] :
    ∀ (l : List α), l.Nodup → ∀ j (h : j < l.length), findPos l (l.get ⟨j, h⟩) = some j
  | [], _, j, h => absurd h (by simp)
  | x :: xs, hnd, 0, h => by
    rw [show (x :: xs).get ⟨0, h⟩ = x from rfl, findPos, if_pos rfl]
  | x :: xs, hnd, j + 1, h => by
    rw [List.nodup_cons] at hnd
    have hj : j < xs.length := by simpa using h
    have hmem : xs.get ⟨j, hj⟩ ∈ xs := xs.get_mem j hj
    have hne : x ≠ xs.get ⟨j, hj⟩ := fun he => hnd.1 (he ▸ hmem)
    rw [show (x :: xs).get ⟨j + 1, h⟩ = xs.get ⟨j, hj⟩ from rfl, findPos, if_neg hne,
      findPos_get_of_nodup xs hnd.2 j hj]
    rfl

/-- Mapping the remapped sort-key entries back through the ordinal list
recovers exactly the surviving old ordinals, in their original order. -/
theorem filterMap_findPos_map_getD (idxs : List Nat) :
    ∀ sk : List Nat,
      ((sk.filterMap (fun o => findPos idxs o)).map (fun j => idxs.getD j 0)) =
        sk.filter (fun o => decide (o ∈ idxs))
  | [] => rfl
  | o :: rest => by
    rw [List.filterMap_cons, List.filter_cons]
    cases hfp : findPos idxs o with
    | none =>
      have hno : o ∉ idxs := (findPos_none_iff idxs o).mp hfp
      rw [if_neg (by simpa using hno)]
      exact filterMap_findPos_map_getD idxs rest
    | some j =>
      obtain ⟨hlt, hget⟩ := findPos_some_spec idxs o j hfp
      have hmem : o ∈ idxs := hget ▸ idxs.get_mem j hlt
      rw [List.map_cons, if_pos (by simpa using hmem)]
      congr 1
      · rw [List.getD_eq_getElem?_getD, List.getElem?_eq_getElem hlt]
        simpa using hget
      · exact filterMap_findPos_map_getD idxs rest

/-- C2: a projection by a duplicate-free ordinal list keeps exactly the
sort-key entries of the base whose column survives, remapped to the columns'
new ordinals in their original relative order — mapping the new sort-key
list back through the ordinal list gives precisely the surviving old
entries in order, every new entry names a surviving sort-key column, every
surviving sort-key column is named, and projecting out a sort-key column
thus removes only that entry; projection by unique ids resolves the ids and
then behaves identically. -/
theorem create_projection_sort_keys (base : TabletSchema) (idxs : List Nat)
    (s2 : TabletSchema) (hc : TabletSchema.create base idxs = some s2) (hnd : idxs.Nodup) :
    s2._cols = idxs.map (fun o => base._cols.getD o defaultTabletColumn) ∧
    s2._sort_key_idxes.map (fun j => idxs.getD j 0) =
      base._sort_key_idxes.filter (fun o => decide (o ∈ idxs)) ∧
    (∀ j, j ∈ s2._sort_key_idxes →
      ∃ h : j < idxs.length, idxs.get ⟨j, h⟩ ∈ base._sort_key_idxes) ∧
    (∀ j (h : j < idxs.length), idxs.get ⟨j, h⟩ ∈ base._sort_key_idxes →
      j ∈ s2._sort_key_idxes) ∧
    (∀ uids idxs2, resolveUids base._cols uids = some idxs2 →
      TabletSchema.create_with_uid base uids = TabletSchema.create base idxs2) := by
  rw [TabletSchema.create] at hc
  by_cases hall : ∀ o ∈ idxs, o < base._cols.length
  · rw [if_pos hall] at hc
    have hs := Option.some.inj hc
    subst hs
    refine ⟨rfl, filterMap_findPos_map_getD idxs base._sort_key_idxes, ?_, ?_, ?_⟩
    · intro j hj
      rw [List.mem_filterMap] at hj
      obtain ⟨o, ho, hfp⟩ := hj
      obtain ⟨hlt, hget⟩ := findPos_some_spec idxs o j hfp
      exact ⟨hlt, hget ▸ ho⟩
    · intro j h hj
      rw [List.mem_filterMap]
      exact ⟨idxs.get ⟨j, h⟩, hj, findPos_get_of_nodup idxs hnd j h⟩
    · intro uids idxs2 hres
      rw [TabletSchema.create_with_uid, hres]
  · rw [if_neg hall] at hc
    exact absurd hc (by simp)

/-- Witness for C2 on the worked example `[2, 0]`: the surviving sort key
`C` is remapped to new ordinal 0, and mapping back recovers exactly the
surviving old entry `[2]`. -/
theorem create_projection_sort_keys_witness :
    projResult._sort_key_idxes.map (fun j => [2, 0].getD j 0) =
      projBase._sort_key_idxes.filter (fun o => decide (o ∈ [2, 0])) :=
  (create_projection_sort_keys projBase [2, 0] projResult rfl (by decide)).2.1
